import Mathlib

/-!
# bbuf: the `Buf` binding over the `buf_t` byte buffer

A shallow embedding of `src/cc/buf.cc`.  The binding methods (`Buf::New`,
`Buf::SetLength`, `Buf::GetIndex`, `Buf::SetIndex`, `Buf::Inspect`, `Buf::Copy`,
`Buf::Slice`) are translated from that file.  The C buffer library they call
(`buf_new`, `buf_grow`, `buf_put`, `buf_putc`, `buf_rrm`, `buf_str`,
`buf_sprintf`, the constant `BUF_MAX_UNIT`) is not part of the source tree; its
functions are modelled from the specification and the constant is a parameter.

Conventions.
* A byte is a `Nat`; `size_t` values are `Nat`; a C `int` is an `Int` kept in the
  32-bit range by `toInt32` at every conversion and arithmetic step.
* `buf_t.data` is the allocated block, one list entry per allocated byte.
* The allocator is an oracle `alloc : Nat → Bool` telling whether a request for a
  block of the given capacity is granted.
* A host string received from the host runtime is the list of its UTF-16 code
  units.  A host string built by `NanNew<String>(const char*)` is represented by
  the bytes it is read from: those of the C string before its first zero byte.
-/

set_option autoImplicit false

/-! ## Machine integers -/

/-- Conversion of an integer to a 32-bit signed C `int` (two's complement wrap). -/
def toInt32 (x : Int) : Int := (x + 2147483648) % 4294967296 - 2147483648

/-- Conversion of an integer to a 64-bit `size_t` (wrap modulo 2^64). -/
def toSizeT (x : Int) : Nat := (x % 18446744073709551616).toNat

/-- The host test `val->IsInt32()` on an integer number. -/
def IsInt32 (x : Int) : Bool := decide (-2147483648 ≤ x) && decide (x < 2147483648)

/-- The host test `val->IsUint32()` on a non-negative integer number. -/
def IsUint32 (x : Nat) : Bool := decide (x < 4294967296)

/-! ## The buffer record and the C library, modelled from the specification -/

/-- The `buf_t` record: allocated block, logical size, capacity, growth unit. -/
structure buf_t where
  data : List Nat
  size : Nat
  cap : Nat
  unit : Nat
deriving DecidableEq

/-- Status codes of the C library. -/
inductive buf_status where
  | BUF_OK
  | BUF_ENOMEM
deriving DecidableEq

/-- Modelled from the spec: `buf_new`, absent from the source tree.  A fresh
buffer has the given unit, size 0 and no allocation yet (section 3, lifecycle). -/
def buf_new (unit : Nat) : buf_t := { data := [], size := 0, cap := 0, unit := unit }

/-- Modelled from the spec: `buf_grow`, absent from the source tree (section 4.1,
`ensure_capacity`).  On success the capacity is at least `size + 1`, being the
smallest multiple of `unit` with that property, and existing bytes keep their
positions; if the allocation is refused the buffer is left unchanged and
`BUF_ENOMEM` is reported.  Freshly allocated bytes are modelled as 0. -/
def buf_grow (alloc : Nat → Bool) (buf : buf_t) (size : Nat) : buf_status × buf_t :=
  if size + 1 ≤ buf.cap then (buf_status.BUF_OK, buf)
  else
    let cap := ((size + 1 + buf.unit - 1) / buf.unit) * buf.unit
    if alloc cap then
      (buf_status.BUF_OK,
        { buf with data := buf.data ++ List.replicate (cap - buf.data.length) 0, cap := cap })
    else (buf_status.BUF_ENOMEM, buf)

/-- Byte-by-byte store of `bytes` into `data` starting at offset `off`. -/
def writeBytes : List Nat → Nat → List Nat → List Nat
  | data, _, [] => data
  | data, off, b :: bs => writeBytes (data.set off b) (off + 1) bs

/-- Modelled from the spec: `buf_put`, absent from the source tree (section 4.2,
`append_bytes`).  Grows the capacity to fit `size + n`, copies `n` bytes of `src`
to offset `size`, adds `n` to `size` and writes a terminator at the new `size`.
If growth fails, the buffer is unchanged and `BUF_ENOMEM` is reported. -/
def buf_put (alloc : Nat → Bool) (buf : buf_t) (src : List Nat) (n : Nat) : buf_status × buf_t :=
  match buf_grow alloc buf (buf.size + n) with
  | (buf_status.BUF_ENOMEM, _) => (buf_status.BUF_ENOMEM, buf)
  | (buf_status.BUF_OK, b) =>
    (buf_status.BUF_OK,
      { b with data := (writeBytes b.data b.size (src.take n)).set (b.size + n) 0,
               size := b.size + n })

/-- Modelled from the spec: `buf_putc`, absent from the source tree (section 4.2,
`append_byte(b)` is `append_bytes(&b, 1)`). -/
def buf_putc (alloc : Nat → Bool) (buf : buf_t) (ch : Nat) : buf_status × buf_t :=
  buf_put alloc buf [ch] 1

/-- Modelled from the spec: `buf_rrm`, absent from the source tree (section 4.3,
`remove_tail`).  Removes `min len size` bytes from the end, keeps the capacity,
writes a terminator at the new size and returns the number of bytes removed. -/
def buf_rrm (buf : buf_t) (len : Nat) : Nat × buf_t :=
  let k := min len buf.size
  (k, { buf with data := buf.data.set (buf.size - k) 0, size := buf.size - k })

/-- Modelled from the spec: `buf_str`, absent from the source tree (section 4.4,
`as_string`).  The view exposes the bytes at positions `[0, size)`; the
terminator that follows them is left implicit. -/
def buf_str (buf : buf_t) : List Nat := buf.data.take buf.size

/-- The byte stored at position `i` of the allocated block (`(buf->data)[i]`). -/
def buf_t.byteAt (buf : buf_t) (i : Nat) : Nat := buf.data.getD i 0

/-- Data-model invariants of section 3 that the operations rely on: the block
has `cap` bytes, `size ≤ cap`, and the unit is positive and at most the
maximum. -/
def buf_t.WF (BUF_MAX_UNIT : Nat) (buf : buf_t) : Prop :=
  buf.data.length = buf.cap ∧ buf.size ≤ buf.cap ∧ 0 < buf.unit ∧ buf.unit ≤ BUF_MAX_UNIT

instance (BUF_MAX_UNIT : Nat) (buf : buf_t) : Decidable (buf.WF BUF_MAX_UNIT) := by
  unfold buf_t.WF; infer_instance

/-! ## Formatting helpers -/

/-- Bytes of an ASCII string literal. -/
def ascii (s : String) : List Nat := s.toList.map Char.toNat

/-- Decimal digits of a natural number, as bytes. -/
def decimal (n : Nat) : List Nat := (Nat.toDigits 10 n).map Char.toNat

/-- The `printf` conversion `%d` applied to a C `int`. -/
def fmt_d (v : Int) : List Nat :=
  if v < 0 then 45 :: decimal (-v).toNat else decimal v.toNat

/-- The `printf` conversion `%.Ns` applied to a C string given by the bytes
before its terminator: at most `n` bytes, stopping early at a zero byte. -/
def fmt_s_prec (n : Nat) (s : List Nat) : List Nat := (s.takeWhile (fun c => c != 0)).take n

/-- Modelled from the spec: `buf_sprintf`, absent from the source tree.  It
appends the formatted bytes to the buffer (section 4.2, `append_bytes`). -/
def buf_sprintf (alloc : Nat → Bool) (buf : buf_t) (formatted : List Nat) : buf_status × buf_t :=
  buf_put alloc buf formatted formatted.length

/-! ## The host runtime -/

/-- The bytes read by `NanNew<String>(const char*)`: the host string is built
from the memory at the pointer up to, and not including, the first zero byte. -/
def NanNew_String (mem : List Nat) : List Nat := mem.takeWhile (fun c => c != 0)

/-- The errors thrown by the binding methods modelled here. -/
inductive Thrown where
  | requires_unsigned_integer
  | requires_integer
  | unit_should_not_be_0
  | unit_is_too_large
  | requires_a_single_char
  | requires_buf_string_buffer
deriving DecidableEq

namespace Buf

/-- Translation of `Buf::New` (lines 112-135): the argument must pass
`ASSERT_UINT32`; the unit must be neither 0 nor above `BUF_MAX_UNIT`; otherwise
`new Buf(unit)` wraps `buf_new(unit)`.  A non-construct call re-enters the same
function as a construct call, hence has the same outcome. -/
def New (BUF_MAX_UNIT : Nat) (arg : Nat) : Except Thrown buf_t :=
  if !IsUint32 arg then Except.error Thrown.requires_unsigned_integer
  else
    let unit := arg
    if unit == 0 then Except.error Thrown.unit_should_not_be_0
    else if unit > BUF_MAX_UNIT then Except.error Thrown.unit_is_too_large
    else Except.ok (buf_new unit)

/-- Translation of `Buf::GetIndex` (lines 202-214).  `index` is the unsigned
index of the host.  For `index >= size` the result is `none`
(`NanReturnUndefined()`).  Otherwise the byte `data[index]` is stored in the
one-element array `char s[1]`, and `NanNew<String>(s)` reads a C string from
it: the array has no room for a terminator, so the read runs on into `stack`,
the bytes that follow the array in memory.  The buffer is returned alongside,
as the method leaves it. -/
def GetIndex (self : buf_t) (index : Nat) (stack : List Nat) : Option (List Nat) × buf_t :=
  if index ≥ self.size then (none, self)
  else
    let s0 := self.data.getD index 0
    (some (NanNew_String (s0 :: stack)), self)

/-- The padding loop of `Buf::SetLength` (lines 192-193),
`while (buf->size < len) buf_putc(buf, 0x20);`.  The status of `buf_putc` is
ignored by the source.  `none` means the loop has not finished within `fuel`
iterations. -/
def SetLength.pad (alloc : Nat → Bool) (len : Nat) : Nat → buf_t → Option buf_t
  | 0, buf => if buf.size < len then none else some buf
  | fuel + 1, buf =>
    if buf.size < len then SetLength.pad alloc len fuel (buf_putc alloc buf 32).2 else some buf

/-- Translation of `Buf::SetLength` (lines 175-197).  The value must pass
`ASSERT_UINT32`.  A shorter target truncates with `buf_rrm`; a longer one calls
`buf_grow` (status ignored) and then pads with 0x20.  The method ends with
`NanReturnValue(buf->size)`; no path throws an out-of-memory error.  The result
is `none` when the padding loop does not finish within `fuel` iterations, and
otherwise the value handed back together with the buffer as the call leaves
it. -/
def SetLength (alloc : Nat → Bool) (fuel : Nat) (self : buf_t) (value : Nat) :
    Option (Except Thrown Nat × buf_t) :=
  if !IsUint32 value then some (Except.error Thrown.requires_unsigned_integer, self)
  else
    let len := value
    let buf1 := if len < self.size then (buf_rrm self (self.size - len)).2 else self
    if len > buf1.size then
      let buf2 := (buf_grow alloc buf1 len).2
      match SetLength.pad alloc len fuel buf2 with
      | none => none
      | some buf3 => some (Except.ok buf3.size, buf3)
    else some (Except.ok buf1.size, buf1)

/-- Translation of `Buf::Inspect` (lines 305-314): a scratch buffer of unit
`size + 12` receives the text formatted by `"<buf [%d] '%.10s%s'>"` from the
size (read by `%d` as an `int`), the string view of the buffer and `".."` or
`""`; `NanNew<String>` of the string view of the scratch buffer is returned.
The inspected buffer is returned alongside, as the method leaves it. -/
def Inspect (alloc : Nat → Bool) (self : buf_t) : List Nat × buf_t :=
  let buf := buf_new ((self.size + 12) % 18446744073709551616)
  let formatted :=
    ascii "<buf [" ++ fmt_d (toInt32 self.size) ++ ascii "] \x27" ++
      fmt_s_prec 10 (buf_str self) ++ (if self.size > 10 then ascii ".." else ascii "") ++
      ascii "\x27>"
  let buf := (buf_sprintf alloc buf formatted).2
  (NanNew_String (buf_str buf), self)

/-- Translation of `Buf::Copy` (lines 319-328): a new instance is constructed
with the unit of the source and receives all `size` bytes through `buf_put`. -/
def Copy (BUF_MAX_UNIT : Nat) (alloc : Nat → Bool) (self : buf_t) : Except Thrown buf_t :=
  match New BUF_MAX_UNIT self.unit with
  | Except.error e => Except.error e
  | Except.ok copy => Except.ok (buf_put alloc copy self.data self.size).2

/-- The index arithmetic of `Buf::Slice` (lines 352-370): from the size and the
two `int` arguments to the adjusted `begin` and the `size_t` length `len`.
With one argument, `end = size` converts the `size_t` to `int`; `begin += size`
and `end += size` are computed in `size_t` and converted back to `int`; the
clamp of `end` compares with `int(size)`. -/
def Slice.bounds (size : Nat) (arg0 : Int) (arg1 : Option Int) : Int × Nat :=
  let begin0 : Int := arg0
  let end0 : Int := match arg1 with
    | none => toInt32 size
    | some a => a
  let begin1 : Int :=
    if begin0 < 0 then toInt32 ((toSizeT begin0 + size) % 18446744073709551616) else begin0
  let begin2 : Int := if begin1 < 0 then 0 else begin1
  let end1 : Int :=
    if end0 < 0 then toInt32 ((toSizeT end0 + size) % 18446744073709551616) else end0
  let end2 : Int := if end1 > toInt32 size then toInt32 size else end1
  let len : Nat := if begin2 < end2 then toSizeT (toInt32 (end2 - begin2)) else 0
  (begin2, len)

/-- The copy loop of `Buf::Slice` (lines 375-378),
`while (idx < len) buf_putc(copy->buf, (self->buf->data)[begin + idx++]);`.
The first argument counts the iterations still to run (`len - idx`).  The state
is the copy together with the log of the source positions read so far. -/
def Slice.loop (alloc : Nat → Bool) (self : buf_t) (begin : Int) :
    Nat → Nat → buf_t × List Nat → buf_t × List Nat
  | 0, _, st => st
  | n + 1, idx, (copy, reads) =>
    let pos := (toSizeT begin + idx) % 18446744073709551616
    Slice.loop alloc self begin n (idx + 1)
      ((buf_putc alloc copy (self.byteAt pos)).2, reads ++ [pos])

/-- Translation of `Buf::Slice` (lines 333-380).  One or two arguments, each of
which must pass `ASSERT_INT32`; a new instance is constructed with the unit of
the source; the bounds are adjusted; if `len > 0` the copy is grown (status
ignored) and the loop appends the bytes one at a time.  The result is the new
buffer together with the log of source positions read by the loop. -/
def Slice (BUF_MAX_UNIT : Nat) (alloc : Nat → Bool) (self : buf_t) (arg0 : Int)
    (arg1 : Option Int) : Except Thrown (buf_t × List Nat) :=
  if !IsInt32 arg0 then Except.error Thrown.requires_integer
  else if !(match arg1 with | none => true | some a => IsInt32 a) then
    Except.error Thrown.requires_integer
  else
    match New BUF_MAX_UNIT self.unit with
    | Except.error e => Except.error e
    | Except.ok copy =>
      let bl := Slice.bounds self.size arg0 arg1
      let copy1 := if bl.2 > 0 then (buf_grow alloc copy bl.2).2 else copy
      Except.ok (Slice.loop alloc self bl.1 bl.2 0 (copy1, []))

end Buf

/-! ## The slice bounds in the words of the specification -/

/-- The adjusted `begin` as the specification states it (section 4.4, rule 1):
`begin` if `begin ≥ 0`, else `max (begin + S) 0`. -/
def specBegin (S : Nat) (begin : Int) : Int :=
  if begin ≥ 0 then begin else max (begin + S) 0

/-- The adjusted `end` as the specification states it (section 4.4, rules 2 and
3): `min S end` for `end ≥ 0`, `min S (end + S)` for `end < 0`, and `S` when
`end` is omitted. -/
def specEnd (S : Nat) (end_ : Option Int) : Int :=
  match end_ with
  | none => S
  | some e => min (S : Int) (if e ≥ 0 then e else e + S)

/-- The length of the slice as the specification states it (section 4.4, rules
4 and 5; section 8, slice clamping law): `e - b` if `b < e`, else 0. -/
def specLen (S : Nat) (begin : Int) (end_ : Option Int) : Nat :=
  if specBegin S begin < specEnd S end_ then (specEnd S end_ - specBegin S begin).toNat else 0

/-! ## Sample data -/

/-- The maximum unit used in the examples (1 MiB). -/
def exampleMaxUnit : Nat := 1048576

/-- An allocator that grants every request. -/
def allocAlways : Nat → Bool := fun _ => true

/-- An allocator that refuses every request. -/
def allocNever : Nat → Bool := fun _ => false

/-- A buffer of unit 4 holding the given bytes, with capacity 8 (zero filled). -/
def sample8 (bytes : List Nat) : buf_t :=
  { data := bytes ++ List.replicate (8 - bytes.length) 0, size := bytes.length, cap := 8, unit := 4 }

/-- The buffer of unit 4 holding "abcdef". -/
def abcdef : buf_t := sample8 (ascii "abcdef")

/-- The buffer of unit 4 holding the three bytes 0x61, 0x00, 0x63 (capacity 4),
as storing a zero byte at index 1 leaves a buffer holding "abc". -/
def nulBuf : buf_t := { data := [97, 0, 99, 0], size := 3, cap := 4, unit := 4 }

/-- The buffer of unit 4 holding "hello world". -/
def helloWorld : buf_t :=
  { data := ascii "hello world" ++ [0], size := 11, cap := 12, unit := 4 }

/-- A buffer of unit 4 holding 2^31 spaces, as `buf.length = 2147483648` leaves
a fresh buffer of that unit. -/
def bigBuf : buf_t :=
  { data := List.replicate 2147483648 32 ++ List.replicate 4 0,
    size := 2147483648, cap := 2147483652, unit := 4 }

/-! ## Lemmas on lists -/

theorem take_set_of_le (l : List Nat) (a : Nat) {n m : Nat} (h : m ≤ n) :
    (l.set n a).take m = l.take m := by
  apply List.ext_getElem?
  intro i
  rw [List.getElem?_take, List.getElem?_take]
  split
  · rw [List.getElem?_set_ne (by omega)]
  · rfl

theorem writeBytes_length (bs : List Nat) : ∀ (d : List Nat) (off : Nat),
    (writeBytes d off bs).length = d.length := by
  induction bs with
  | nil => intro d off; rfl
  | cons b bs ih => intro d off; simp [writeBytes, ih]

theorem take_writeBytes (bs : List Nat) : ∀ (d : List Nat) (off : Nat),
    off + bs.length ≤ d.length →
    (writeBytes d off bs).take (off + bs.length) = d.take off ++ bs := by
  induction bs with
  | nil => intro d off _; simp [writeBytes]
  | cons b bs ih =>
    intro d off h
    simp only [List.length_cons] at h
    have h1 : (writeBytes (d.set off b) (off + 1) bs).take (off + 1 + bs.length)
        = (d.set off b).take (off + 1) ++ bs := ih (d.set off b) (off + 1) (by simp; omega)
    have h2 : (d.set off b).take (off + 1) = d.take off ++ [b] := by
      rw [List.take_succ, take_set_of_le d b (Nat.le_refl off)]
      have : (d.set off b)[off]? = some b := by
        rw [List.getElem?_set]; simp; omega
      rw [this]; rfl
    simp only [writeBytes, List.length_cons]
    rw [show off + (bs.length + 1) = off + 1 + bs.length by omega, h1, h2]
    simp

theorem ceil_unit_ge (size unit : Nat) (h : 0 < unit) :
    size + 1 ≤ ((size + 1 + unit - 1) / unit) * unit := by
  have h1 := Nat.div_add_mod (size + 1 + unit - 1) unit
  have h2 := Nat.mod_lt (size + 1 + unit - 1) h
  rw [Nat.mul_comm] at h1
  generalize ((size + 1 + unit - 1) / unit) * unit = q at *
  omega

/-! ## Lemmas on the buffer library -/

theorem buf_str_length (M : Nat) (buf : buf_t) (h : buf.WF M) : (buf_str buf).length = buf.size := by
  obtain ⟨h1, h2, _, _⟩ := h
  simp [buf_str, List.length_take]; omega

theorem byteAt_eq_str (buf : buf_t) (i : Nat) (h : i < buf.size) :
    buf.byteAt i = (buf_str buf).getD i 0 := by
  simp [buf_t.byteAt, buf_str, List.getElem?_take, h]

theorem buf_grow_spec (M : Nat) (alloc : Nat → Bool) (buf : buf_t) (size : Nat) (h : buf.WF M) :
    ((buf_grow alloc buf size).1 = buf_status.BUF_ENOMEM ∧ (buf_grow alloc buf size).2 = buf ∧
        ¬ (∀ k, alloc k = true)) ∨
    ((buf_grow alloc buf size).1 = buf_status.BUF_OK ∧ (buf_grow alloc buf size).2.WF M ∧
      (buf_grow alloc buf size).2.size = buf.size ∧ (buf_grow alloc buf size).2.unit = buf.unit ∧
      size + 1 ≤ (buf_grow alloc buf size).2.cap ∧
      ∃ t, (buf_grow alloc buf size).2.data = buf.data ++ t) := by
  obtain ⟨h1, h2, h3, h4⟩ := h
  have hge := ceil_unit_ge size buf.unit h3
  by_cases hc : size + 1 ≤ buf.cap
  · right
    have e : buf_grow alloc buf size = (buf_status.BUF_OK, buf) := by
      unfold buf_grow; rw [if_pos hc]
    rw [e]
    exact ⟨rfl, ⟨h1, h2, h3, h4⟩, rfl, rfl, hc, [], by simp⟩
  · by_cases ha : alloc (((size + 1 + buf.unit - 1) / buf.unit) * buf.unit) = true
    · right
      have e : buf_grow alloc buf size = (buf_status.BUF_OK,
          { buf with
            data := buf.data ++
              (List.replicate (((size + 1 + buf.unit - 1) / buf.unit) * buf.unit - buf.data.length) 0),
            cap := ((size + 1 + buf.unit - 1) / buf.unit) * buf.unit }) := by
        unfold buf_grow; rw [if_neg hc]; simp only [ha, if_true]
      rw [e]
      generalize ((size + 1 + buf.unit - 1) / buf.unit) * buf.unit = q at *
      refine ⟨rfl, ⟨?_, ?_, h3, h4⟩, rfl, rfl, hge, _, rfl⟩
      · simp; omega
      · show buf.size ≤ q
        omega
    · left
      have e : buf_grow alloc buf size = (buf_status.BUF_ENOMEM, buf) := by
        unfold buf_grow; rw [if_neg hc]; simp only [ha]; rfl
      rw [e]
      refine ⟨rfl, rfl, ?_⟩
      intro hall
      exact ha (hall _)

theorem buf_put_spec (M : Nat) (alloc : Nat → Bool) (buf : buf_t) (src : List Nat) (n : Nat)
    (h : buf.WF M) (hn : n ≤ src.length) :
    ((buf_put alloc buf src n).1 = buf_status.BUF_ENOMEM ∧ (buf_put alloc buf src n).2 = buf ∧
        ¬ (∀ k, alloc k = true)) ∨
    ((buf_put alloc buf src n).1 = buf_status.BUF_OK ∧ (buf_put alloc buf src n).2.WF M ∧
      (buf_put alloc buf src n).2.size = buf.size + n ∧
      (buf_put alloc buf src n).2.unit = buf.unit ∧
      buf_str (buf_put alloc buf src n).2 = buf_str buf ++ src.take n) := by
  unfold buf_put
  rcases buf_grow_spec M alloc buf (buf.size + n) h with ⟨e1, e2, e3⟩ | ⟨e1, e2, e3, e4, e5, t, e6⟩
  · left
    generalize buf_grow alloc buf (buf.size + n) = r at *
    obtain ⟨st, b⟩ := r
    simp only at e1 e2
    subst e1
    exact ⟨rfl, rfl, e3⟩
  · right
    generalize buf_grow alloc buf (buf.size + n) = r at *
    obtain ⟨st, b⟩ := r
    simp only at e1 e2 e3 e4 e5 e6
    subst e1
    obtain ⟨w1, w2, w3, w4⟩ := e2
    have hlen : (src.take n).length = n := by simp [List.length_take]; omega
    refine ⟨rfl, ⟨?_, ?_, w3, w4⟩, ?_, e4, ?_⟩
    · simp [writeBytes_length, w1]
    · show b.size + n ≤ b.cap
      omega
    · show b.size + n = buf.size + n
      omega
    · show ((writeBytes b.data b.size (src.take n)).set (b.size + n) 0).take (b.size + n)
        = buf_str buf ++ src.take n
      rw [take_set_of_le _ _ (Nat.le_refl _)]
      have hw := take_writeBytes (src.take n) b.data b.size (by rw [hlen, w1]; omega)
      rw [hlen] at hw
      rw [hw, e6, e3]
      have : buf.size ≤ buf.data.length := by obtain ⟨a1, a2, _, _⟩ := h; omega
      rw [List.take_append_of_le_length this]
      rfl

theorem buf_putc_spec (M : Nat) (alloc : Nat → Bool) (buf : buf_t) (ch : Nat) (h : buf.WF M) :
    ((buf_putc alloc buf ch).1 = buf_status.BUF_ENOMEM ∧ (buf_putc alloc buf ch).2 = buf ∧
        ¬ (∀ k, alloc k = true)) ∨
    ((buf_putc alloc buf ch).1 = buf_status.BUF_OK ∧ (buf_putc alloc buf ch).2.WF M ∧
      (buf_putc alloc buf ch).2.size = buf.size + 1 ∧
      (buf_putc alloc buf ch).2.unit = buf.unit ∧
      buf_str (buf_putc alloc buf ch).2 = buf_str buf ++ [ch]) := by
  have := buf_put_spec M alloc buf [ch] 1 h (by simp)
  simpa [buf_putc] using this

theorem buf_new_WF (M unit : Nat) (h0 : 0 < unit) (h1 : unit ≤ M) : (buf_new unit).WF M :=
  ⟨rfl, Nat.le_refl 0, h0, h1⟩

/-! ## The padding loop of `SetLength` -/

theorem pad_spec (M : Nat) (alloc : Nat → Bool) (len : Nat) : ∀ (fuel : Nat) (buf b : buf_t),
    buf.WF M → buf.size ≤ len → Buf.SetLength.pad alloc len fuel buf = some b →
    b.WF M ∧ b.size = len ∧ b.unit = buf.unit ∧
      buf_str b = buf_str buf ++ List.replicate (len - buf.size) 32 := by
  intro fuel
  induction fuel with
  | zero =>
    intro buf b hwf hle hp
    unfold Buf.SetLength.pad at hp
    by_cases hlt : buf.size < len
    · rw [if_pos hlt] at hp; cases hp
    · rw [if_neg hlt] at hp
      cases hp
      have : len - buf.size = 0 := by omega
      refine ⟨hwf, by omega, rfl, by simp [this]⟩
  | succ fuel ih =>
    intro buf b hwf hle hp
    unfold Buf.SetLength.pad at hp
    by_cases hlt : buf.size < len
    · rw [if_pos hlt] at hp
      rcases buf_putc_spec M alloc buf 32 hwf with ⟨_, e2, _⟩ | ⟨_, e2, e3, e4, e5⟩
      · rw [e2] at hp
        exact ih buf b hwf hle hp
      · obtain ⟨i1, i2, i3, i4⟩ := ih _ b e2 (by omega) hp
        refine ⟨i1, i2, by rw [i3, e4], ?_⟩
        rw [i4, e5, e3, List.append_assoc]
        congr 1
        rw [show len - buf.size = (len - (buf.size + 1)) + 1 by omega, List.replicate_succ]
        rfl
    · rw [if_neg hlt] at hp
      cases hp
      have : len - buf.size = 0 := by omega
      refine ⟨hwf, by omega, rfl, by simp [this]⟩

theorem pad_terminates (M : Nat) (alloc : Nat → Bool) (len : Nat) (hall : ∀ k, alloc k = true) :
    ∀ (fuel : Nat) (buf : buf_t), buf.WF M → len - buf.size ≤ fuel →
    ∃ b, Buf.SetLength.pad alloc len fuel buf = some b := by
  intro fuel
  induction fuel with
  | zero =>
    intro buf _ hf
    unfold Buf.SetLength.pad
    rw [if_neg (by omega)]
    exact ⟨buf, rfl⟩
  | succ fuel ih =>
    intro buf hwf hf
    unfold Buf.SetLength.pad
    by_cases hlt : buf.size < len
    · rw [if_pos hlt]
      rcases buf_putc_spec M alloc buf 32 hwf with ⟨_, _, e3⟩ | ⟨_, e2, e3, _, _⟩
      · exact absurd hall e3
      · exact ih _ e2 (by omega)
    · rw [if_neg hlt]
      exact ⟨buf, rfl⟩

theorem pad_never (len : Nat) (buf : buf_t) (hlt : buf.size < len)
    (hfail : (buf_putc allocNever buf 32).2 = buf) :
    ∀ fuel : Nat, Buf.SetLength.pad allocNever len fuel buf = none := by
  intro fuel
  induction fuel with
  | zero => unfold Buf.SetLength.pad; rw [if_pos hlt]
  | succ fuel ih => unfold Buf.SetLength.pad; rw [if_pos hlt, hfail]; exact ih

theorem buf_rrm_spec (M : Nat) (buf : buf_t) (len : Nat) (h : buf.WF M) (hlen : len < buf.size) :
    (buf_rrm buf (buf.size - len)).2.WF M ∧ (buf_rrm buf (buf.size - len)).2.size = len ∧
    (buf_rrm buf (buf.size - len)).2.unit = buf.unit ∧
    (buf_rrm buf (buf.size - len)).2.cap = buf.cap ∧
    buf_str (buf_rrm buf (buf.size - len)).2 = (buf_str buf).take len := by
  obtain ⟨h1, h2, h3, h4⟩ := h
  have hk : buf.size - min (buf.size - len) buf.size = len := by omega
  have e : buf_rrm buf (buf.size - len) =
      (buf.size - len, { buf with data := buf.data.set len 0, size := len }) := by
    unfold buf_rrm
    simp only [hk]
    rw [Nat.min_eq_left (by omega)]
  rw [e]
  refine ⟨⟨?_, ?_, h3, h4⟩, rfl, rfl, rfl, ?_⟩
  · simp [h1]
  · show len ≤ buf.cap
    omega
  · show (buf.data.set len 0).take len = (buf.data.take buf.size).take len
    rw [take_set_of_le _ _ (Nat.le_refl _), List.take_take, Nat.min_eq_left (by omega)]

theorem buf_grow_keeps (M : Nat) (alloc : Nat → Bool) (buf : buf_t) (size : Nat) (h : buf.WF M) :
    (buf_grow alloc buf size).2.WF M ∧ (buf_grow alloc buf size).2.size = buf.size ∧
    (buf_grow alloc buf size).2.unit = buf.unit ∧
    buf_str (buf_grow alloc buf size).2 = buf_str buf := by
  rcases buf_grow_spec M alloc buf size h with ⟨_, e2, _⟩ | ⟨_, e2, e3, e4, _, t, e6⟩
  · rw [e2]; exact ⟨h, rfl, rfl, rfl⟩
  · refine ⟨e2, e3, e4, ?_⟩
    unfold buf_str
    rw [e6, e3]
    have : buf.size ≤ buf.data.length := by obtain ⟨a1, a2, _, _⟩ := h; omega
    rw [List.take_append_of_le_length this]

theorem SetLength_ok (M : Nat) (alloc : Nat → Bool) (fuel : Nat) (self : buf_t) (target r : Nat)
    (b : buf_t) (hwf : self.WF M)
    (hret : Buf.SetLength alloc fuel self target = some (Except.ok r, b)) :
    r = target ∧ b.size = target ∧ b.unit = self.unit ∧ b.WF M ∧
    buf_str b = (buf_str self).take target ++ List.replicate (target - self.size) 32 ∧
    (target = self.size → b = self) := by
  unfold Buf.SetLength at hret
  by_cases hu : IsUint32 target = true
  · simp only [hu, Bool.not_true, Bool.false_eq_true, if_false] at hret
    have hstr := buf_str_length M self hwf
    rcases Nat.lt_trichotomy target self.size with hlt | heq | hgt
    · obtain ⟨r1, r2, r3, _, r5⟩ := buf_rrm_spec M self target hwf hlt
      have hn : ¬ target > (buf_rrm self (self.size - target)).2.size := by rw [r2]; omega
      rw [if_pos hlt, if_neg hn] at hret
      cases hret
      refine ⟨r2, r2, r3, r1, ?_, fun h => absurd h (by omega)⟩
      rw [r5, show target - self.size = 0 by omega]
      simp
    · have hn1 : ¬ target < self.size := by omega
      have hn2 : ¬ target > self.size := by omega
      rw [if_neg hn1, if_neg hn2] at hret
      cases hret
      refine ⟨heq.symm, heq.symm, rfl, hwf, ?_, fun _ => rfl⟩
      rw [heq, show self.size - self.size = 0 by omega, List.take_of_length_le (by omega)]
      simp
    · have hn1 : ¬ target < self.size := by omega
      rw [if_neg hn1, if_pos hgt] at hret
      obtain ⟨g1, g2, g3, g4⟩ := buf_grow_keeps M alloc self target hwf
      cases hp : Buf.SetLength.pad alloc target fuel (buf_grow alloc self target).2 with
      | none => rw [hp] at hret; cases hret
      | some b3 =>
        rw [hp] at hret
        cases hret
        obtain ⟨p1, p2, p3, p4⟩ := pad_spec M alloc target fuel _ b g1 (by omega) hp
        refine ⟨p2, p2, by rw [p3, g3], p1, ?_, fun h => absurd h (by omega)⟩
        rw [p4, g4, g2, List.take_of_length_le (by omega)]
  · simp only [hu, Bool.not_false, if_true] at hret
    cases hret

theorem SetLength_returns (M : Nat) (alloc : Nat → Bool) (self : buf_t) (target : Nat)
    (hwf : self.WF M) (ht : target < 4294967296) (hall : ∀ k, alloc k = true) :
    ∃ b, Buf.SetLength alloc (target - self.size) self target = some (Except.ok target, b) := by
  have hu : IsUint32 target = true := by simp [IsUint32, ht]
  have key : ∃ r b, Buf.SetLength alloc (target - self.size) self target = some (Except.ok r, b) := by
    unfold Buf.SetLength
    simp only [hu, Bool.not_true, Bool.false_eq_true, if_false]
    by_cases hgt : target > self.size
    · have hn1 : ¬ target < self.size := by omega
      rw [if_neg hn1, if_pos hgt]
      obtain ⟨g1, g2, _, _⟩ := buf_grow_keeps M alloc self target hwf
      obtain ⟨b, hb⟩ := pad_terminates M alloc target hall (target - self.size) _ g1 (by omega)
      rw [hb]
      exact ⟨_, _, rfl⟩
    · by_cases hlt : target < self.size
      · obtain ⟨_, r2, _, _, _⟩ := buf_rrm_spec M self target hwf hlt
        have hn : ¬ target > (buf_rrm self (self.size - target)).2.size := by rw [r2]; omega
        rw [if_pos hlt, if_neg hn]
        exact ⟨_, _, rfl⟩
      · rw [if_neg hlt, if_neg hgt]
        exact ⟨_, _, rfl⟩
  obtain ⟨r, b, h⟩ := key
  have := (SetLength_ok M alloc _ self target r b hwf h).1
  subst this
  exact ⟨b, h⟩

namespace Buf

/-- C4: on a well-formed buffer of size S, a call of `SetLength` that returns
hands back the target and leaves `size` equal to it; the bytes at positions
below `min S target` are unchanged, every position in `[S, target)` holds 0x20,
and when the target equals S the buffer is left as it was.  When every
allocation is granted and the target is an unsigned 32-bit value, the call does
return, within `target - S` iterations of the padding loop. -/
theorem SetLength_spec (M : Nat) (self : buf_t) (target : Nat) (hwf : self.WF M) :
    (target < 4294967296 → ∀ alloc : Nat → Bool, (∀ k, alloc k = true) →
      ∃ b, SetLength alloc (target - self.size) self target = some (Except.ok target, b)) ∧
    (∀ (alloc : Nat → Bool) (fuel r : Nat) (b : buf_t),
      SetLength alloc fuel self target = some (Except.ok r, b) →
      r = target ∧ b.size = target ∧
      (∀ i, i < min self.size target → b.byteAt i = self.byteAt i) ∧
      (∀ i, self.size ≤ i → i < target → b.byteAt i = 32) ∧
      (target = self.size → b = self)) := by
  refine ⟨fun ht alloc hall => SetLength_returns M alloc self target hwf ht hall, ?_⟩
  intro alloc fuel r b hret
  obtain ⟨h1, h2, _, _, h5, h6⟩ := SetLength_ok M alloc fuel self target r b hwf hret
  have hlen := buf_str_length M self hwf
  refine ⟨h1, h2, ?_, ?_, h6⟩
  · intro i hi
    rw [byteAt_eq_str b i (by omega), byteAt_eq_str self i (by omega), h5]
    have hi2 : i < ((buf_str self).take target).length := by
      rw [List.length_take]; omega
    simp only [List.getD_eq_getElem?_getD]
    rw [List.getElem?_append_left hi2, List.getElem?_take_of_lt (by omega)]
  · intro i hi1 hi2
    rw [byteAt_eq_str b i (by omega), h5]
    have hl : ((buf_str self).take target).length = self.size := by
      rw [List.length_take]; omega
    simp only [List.getD_eq_getElem?_getD]
    rw [List.getElem?_append_right (by omega), hl,
      List.getElem?_replicate_of_lt (by omega)]
    rfl

end Buf

namespace Buf

/-- C5: `SetLength` has no path that signals an out-of-memory failure: the only
error it can hand back is the type error of `ASSERT_UINT32`.  When every
allocation is refused, `SetLength` on the fresh buffer of unit 4 with target 5
never returns, whatever the number of iterations granted to the padding loop;
on the buffer "abcdef" (capacity 8) with target 9 it never returns either, and
the first iteration of the loop has already appended one space (size 7). -/
theorem SetLength_oom_diverges :
    (∀ (alloc : Nat → Bool) (fuel : Nat) (self : buf_t) (target : Nat) (e : Thrown) (b : buf_t),
      SetLength alloc fuel self target = some (Except.error e, b) →
      e = Thrown.requires_unsigned_integer ∧ ¬ target < 4294967296) ∧
    (∀ fuel : Nat, SetLength allocNever fuel (buf_new 4) 5 = none) ∧
    (∀ fuel : Nat, SetLength allocNever fuel abcdef 9 = none) ∧
    (buf_putc allocNever (buf_grow allocNever abcdef 9).2 32).2.size = 7 := by
  refine ⟨?_, ?_, ?_, by decide⟩
  · intro alloc fuel self target e b h
    unfold SetLength at h
    split at h
    · rename_i hu
      simp only [Option.some.injEq, Prod.mk.injEq, Except.error.injEq] at h
      refine ⟨h.1.symm, ?_⟩
      intro hlt
      simp [IsUint32, hlt] at hu
    · simp only at h
      generalize (if target < self.size then (buf_rrm self (self.size - target)).2 else self)
        = buf1 at h
      by_cases hgt : target > buf1.size
      · rw [if_pos hgt] at h
        cases hp : SetLength.pad alloc target fuel (buf_grow alloc buf1 target).2 with
        | none => rw [hp] at h; cases h
        | some b3 => rw [hp] at h; simp at h
      · rw [if_neg hgt] at h
        simp at h
  · intro fuel
    have hp := pad_never 5 (buf_new 4) (by decide) (by decide) fuel
    have hg : (buf_grow allocNever (buf_new 4) 5).2 = buf_new 4 := by decide
    have hu : IsUint32 5 = true := by decide
    have hn1 : ¬ 5 < (buf_new 4).size := by decide
    have hgt : 5 > (buf_new 4).size := by decide
    unfold SetLength
    simp only [hu, Bool.not_true, Bool.false_eq_true, if_false]
    rw [if_neg hn1, if_pos hgt, hg, hp]
  · intro fuel
    have hg : (buf_grow allocNever abcdef 9).2 = abcdef := by decide
    have hu : IsUint32 9 = true := by decide
    have hn1 : ¬ 9 < abcdef.size := by decide
    have hgt : 9 > abcdef.size := by decide
    have hp : SetLength.pad allocNever 9 fuel abcdef = none := by
      cases fuel with
      | zero => decide
      | succ f =>
        unfold SetLength.pad
        rw [if_pos (by decide)]
        exact pad_never 9 _ (by decide) (by decide) f
    unfold SetLength
    simp only [hu, Bool.not_true, Bool.false_eq_true, if_false]
    rw [if_neg hn1, if_pos hgt, hg, hp]

/-- C6: `GetIndex` hands back "no value" for `i ≥ size` and never changes the
buffer, but for `i < size` the string it hands back is read from an array
without terminator: it is the empty string when the stored byte is zero
(position 1 of the buffer holding 0x61, 0x00, 0x63), and it runs on into the
bytes that follow the array in memory otherwise (on "abcdef", position 2, with
0x7F 0x00 following: the two bytes 0x63 0x7F; only when a zero byte follows
directly: the one byte 0x63). -/
theorem GetIndex_unterminated :
    (∀ stack : List Nat, (GetIndex nulBuf 1 stack).1 = some []) ∧
    (GetIndex abcdef 2 [127, 0]).1 = some [99, 127] ∧
    (GetIndex abcdef 2 [0]).1 = some [99] ∧
    (∀ (self : buf_t) (i : Nat) (stack : List Nat), i < self.size →
      (GetIndex self i stack).1 =
        some ((self.data.getD i 0 :: stack).takeWhile (fun c => c != 0))) ∧
    (∀ (self : buf_t) (i : Nat) (stack : List Nat), self.size ≤ i →
      (GetIndex self i stack).1 = none) ∧
    (∀ (self : buf_t) (i : Nat) (stack : List Nat), (GetIndex self i stack).2 = self) := by
  refine ⟨?_, by decide, by decide, ?_, ?_, ?_⟩
  · intro stack
    unfold GetIndex
    rw [if_neg (by decide)]
    rfl
  · intro self i stack hi
    unfold GetIndex
    rw [if_neg (by omega)]
    rfl
  · intro self i stack hi
    unfold GetIndex
    rw [if_pos hi]
  · intro self i stack
    unfold GetIndex
    split <;> rfl

/-- C8: if the maximum unit is below 2^32, or the unit is an unsigned 32-bit
value, then `New` fails exactly when the unit is 0 or exceeds the maximum, and
for every unit with `0 < unit ≤ BUF_MAX_UNIT` it yields a buffer with exactly
that unit (empty, nothing allocated yet). -/
theorem New_spec (BUF_MAX_UNIT unit : Nat)
    (h : BUF_MAX_UNIT < 4294967296 ∨ unit < 4294967296) :
    ((∃ e, New BUF_MAX_UNIT unit = Except.error e) ↔ (unit = 0 ∨ unit > BUF_MAX_UNIT)) ∧
    (0 < unit ∧ unit ≤ BUF_MAX_UNIT →
      ∃ buf, New BUF_MAX_UNIT unit = Except.ok buf ∧ buf.unit = unit ∧ buf = buf_new unit) := by
  unfold New IsUint32
  by_cases h0 : unit = 0
  · subst h0
    simp
  · by_cases h1 : unit > BUF_MAX_UNIT
    · have : ¬ (unit ≤ BUF_MAX_UNIT) := by omega
      by_cases h2 : unit < 4294967296
      · simp [h0, h1, h2, this]
      · simp [h0, h1, h2, this]
    · have h2 : unit < 4294967296 := by omega
      have h3 : unit ≤ BUF_MAX_UNIT := by omega
      simp [h0, h1, h2, h3, buf_new]

end Buf

/-! ## Index arithmetic of `Slice` -/

theorem toInt32_le (S : Nat) : toInt32 S ≤ S := by
  unfold toInt32; omega

theorem toInt32_lt (x : Int) : toInt32 x < 2147483648 := by
  unfold toInt32; omega

theorem toInt32_id (x : Int) (h1 : -2147483648 ≤ x) (h2 : x < 2147483648) : toInt32 x = x := by
  unfold toInt32; omega

theorem toSizeT_id (x : Int) (h1 : 0 ≤ x) (h2 : x < 18446744073709551616) :
    (toSizeT x : Int) = x := by
  unfold toSizeT; omega

theorem toInt32_wrap_add (a : Int) (S : Nat) (h1 : -2147483648 ≤ a) (h2 : a < 0)
    (hS : S < 2147483648) :
    toInt32 ((toSizeT a + S) % 18446744073709551616) = a + S := by
  have e : ((toSizeT a : Nat) : Int) = a + 18446744073709551616 := by
    unfold toSizeT; omega
  rw [e]
  unfold toInt32
  omega

theorem bounds_core (S : Nat) (b1 e1 iS : Int) (hS : iS ≤ S) (hR : iS < 2147483648) :
    0 ≤ (if b1 < 0 then 0 else b1) ∧
    (0 < (if (if b1 < 0 then 0 else b1) < (if e1 > iS then iS else e1)
        then toSizeT (toInt32 ((if e1 > iS then iS else e1) - (if b1 < 0 then 0 else b1)))
        else 0) →
      toSizeT (if b1 < 0 then 0 else b1) +
        (if (if b1 < 0 then 0 else b1) < (if e1 > iS then iS else e1)
          then toSizeT (toInt32 ((if e1 > iS then iS else e1) - (if b1 < 0 then 0 else b1)))
          else 0) ≤ S ∧
      (toSizeT (if b1 < 0 then 0 else b1) : Int) = (if b1 < 0 then 0 else b1) ∧
      toSizeT (if b1 < 0 then 0 else b1) +
        (if (if b1 < 0 then 0 else b1) < (if e1 > iS then iS else e1)
          then toSizeT (toInt32 ((if e1 > iS then iS else e1) - (if b1 < 0 then 0 else b1)))
          else 0) ≤ 2147483648) := by
  generalize hb2 : (if b1 < 0 then 0 else b1) = b2
  generalize he2 : (if e1 > iS then iS else e1) = e2
  have hb : 0 ≤ b2 := by rw [← hb2]; split <;> omega
  have he : e2 ≤ iS := by rw [← he2]; split <;> omega
  refine ⟨hb, ?_⟩
  by_cases hlt : b2 < e2
  · rw [if_pos hlt, toInt32_id (e2 - b2) (by omega) (by omega)]
    intro _
    have e1 := toSizeT_id b2 hb (by omega)
    have e3 := toSizeT_id (e2 - b2) (by omega) (by omega)
    refine ⟨?_, e1, ?_⟩
    · omega
    · omega
  · rw [if_neg hlt]
    intro h
    exact absurd h (by omega)

theorem bounds_in_range (S : Nat) (a0 : Int) (a1 : Option Int) :
    0 ≤ (Buf.Slice.bounds S a0 a1).1 ∧
    (0 < (Buf.Slice.bounds S a0 a1).2 →
      toSizeT (Buf.Slice.bounds S a0 a1).1 + (Buf.Slice.bounds S a0 a1).2 ≤ S ∧
      (toSizeT (Buf.Slice.bounds S a0 a1).1 : Int) = (Buf.Slice.bounds S a0 a1).1 ∧
      toSizeT (Buf.Slice.bounds S a0 a1).1 + (Buf.Slice.bounds S a0 a1).2 ≤ 2147483648) :=
  bounds_core S _ _ (toInt32 S) (toInt32_le S) (toInt32_lt S)

theorem bounds_eq_core (S : Nat) (begin end0 iS E : Int) (hS : S < 2147483648)
    (hb1 : -2147483648 ≤ begin) (hb2 : begin < 2147483648)
    (he1 : -2147483648 ≤ end0) (he2 : end0 < 2147483648) (hiS : iS = S)
    (hE : E = min (S : Int) (if end0 ≥ 0 then end0 else end0 + S)) :
    (if (if begin < 0 then toInt32 ((toSizeT begin + S) % 18446744073709551616) else begin) < 0
      then 0
      else (if begin < 0 then toInt32 ((toSizeT begin + S) % 18446744073709551616) else begin))
      = specBegin S begin ∧
    (if (if (if begin < 0 then toInt32 ((toSizeT begin + S) % 18446744073709551616) else begin) < 0
          then 0
          else (if begin < 0 then toInt32 ((toSizeT begin + S) % 18446744073709551616)
            else begin))
        < (if (if end0 < 0 then toInt32 ((toSizeT end0 + S) % 18446744073709551616) else end0) > iS
            then iS
            else (if end0 < 0 then toInt32 ((toSizeT end0 + S) % 18446744073709551616)
              else end0))
      then toSizeT (toInt32
        ((if (if end0 < 0 then toInt32 ((toSizeT end0 + S) % 18446744073709551616) else end0) > iS
            then iS
            else (if end0 < 0 then toInt32 ((toSizeT end0 + S) % 18446744073709551616)
              else end0))
          - (if (if begin < 0 then toInt32 ((toSizeT begin + S) % 18446744073709551616)
                else begin) < 0
              then 0
              else (if begin < 0 then toInt32 ((toSizeT begin + S) % 18446744073709551616)
                else begin))))
      else 0)
      = (if specBegin S begin < E then (E - specBegin S begin).toNat else 0) := by
  have eB : (if (if begin < 0 then toInt32 ((toSizeT begin + S) % 18446744073709551616)
        else begin) < 0 then 0
      else (if begin < 0 then toInt32 ((toSizeT begin + S) % 18446744073709551616) else begin))
      = specBegin S begin := by
    unfold specBegin
    by_cases hb : begin < 0
    · rw [if_pos hb, toInt32_wrap_add begin S hb1 hb hS]
      split_ifs <;> omega
    · rw [if_neg hb]
      split_ifs <;> omega
  have eE : (if (if end0 < 0 then toInt32 ((toSizeT end0 + S) % 18446744073709551616)
        else end0) > iS then iS
      else (if end0 < 0 then toInt32 ((toSizeT end0 + S) % 18446744073709551616) else end0))
      = E := by
    rw [hE, hiS]
    by_cases hb : end0 < 0
    · rw [if_pos hb, toInt32_wrap_add end0 S he1 hb hS]
      split_ifs <;> omega
    · rw [if_neg hb]
      split_ifs <;> omega
  rw [eB, eE]
  refine ⟨rfl, ?_⟩
  have hB0 : 0 ≤ specBegin S begin := by unfold specBegin; split_ifs <;> omega
  have hE0 : E ≤ S := by rw [hE]; omega
  by_cases hlt : specBegin S begin < E
  · rw [if_pos hlt, if_pos hlt, toInt32_id _ (by omega) (by omega)]
    unfold toSizeT
    omega
  · rw [if_neg hlt, if_neg hlt]

theorem bounds_eq_spec (S : Nat) (begin : Int) (end_ : Option Int) (hS : S < 2147483648)
    (hb : IsInt32 begin = true) (he : ∀ e, end_ = some e → IsInt32 e = true) :
    (Buf.Slice.bounds S begin end_).1 = specBegin S begin ∧
    (Buf.Slice.bounds S begin end_).2 = specLen S begin end_ := by
  simp only [IsInt32, Bool.and_eq_true, decide_eq_true_eq] at hb he
  have hSi : toInt32 S = S := toInt32_id S (by omega) (by omega)
  cases end_ with
  | none =>
    have h := bounds_eq_core S begin (toInt32 S) (toInt32 S) S hS hb.1 hb.2 (by omega) (by omega)
      hSi (by rw [hSi]; split_ifs <;> omega)
    unfold Buf.Slice.bounds specLen specEnd
    simp only
    exact h
  | some e =>
    obtain ⟨h1, h2⟩ := he e rfl
    have h := bounds_eq_core S begin e (toInt32 S) _ hS hb.1 hb.2 h1 h2 hSi rfl
    unfold Buf.Slice.bounds specLen specEnd
    simp only
    exact h

/-! ## The copy loop of `Slice` -/

theorem map_getD_range' (l : List Nat) : ∀ (len b : Nat), b + len ≤ l.length →
    (List.range' b len).map (fun p => l.getD p 0) = (l.drop b).take len := by
  intro len
  induction len with
  | zero => intro b _; simp
  | succ len ih =>
    intro b h
    have hb : b < l.length := by omega
    rw [List.range'_succ, List.map_cons, ih (b + 1) (by omega), List.drop_eq_getElem_cons hb,
      List.take_succ_cons]
    congr 1
    simp [List.getD_eq_getElem?_getD, List.getElem?_eq_getElem hb]

theorem loop_reads (alloc : Nat → Bool) (self : buf_t) (begin : Int) :
    ∀ (n idx : Nat) (copy : buf_t) (reads : List Nat),
    toSizeT begin + idx + n ≤ 18446744073709551616 →
    (Buf.Slice.loop alloc self begin n idx (copy, reads)).2
      = reads ++ List.range' (toSizeT begin + idx) n := by
  intro n
  induction n with
  | zero => intro idx copy reads _; simp [Buf.Slice.loop]
  | succ n ih =>
    intro idx copy reads h
    unfold Buf.Slice.loop
    simp only
    rw [ih (idx + 1) _ _ (by omega), List.range'_succ, Nat.mod_eq_of_lt (by omega)]
    simp [Nat.add_assoc]

theorem loop_spec (M : Nat) (alloc : Nat → Bool) (self : buf_t) (begin : Int)
    (hall : ∀ k, alloc k = true) :
    ∀ (n idx : Nat) (copy : buf_t) (reads : List Nat), copy.WF M →
    toSizeT begin + idx + n ≤ 18446744073709551616 →
    (Buf.Slice.loop alloc self begin n idx (copy, reads)).1.WF M ∧
    (Buf.Slice.loop alloc self begin n idx (copy, reads)).1.unit = copy.unit ∧
    (Buf.Slice.loop alloc self begin n idx (copy, reads)).1.size = copy.size + n ∧
    buf_str (Buf.Slice.loop alloc self begin n idx (copy, reads)).1
      = buf_str copy ++ (List.range' (toSizeT begin + idx) n).map (fun p => self.data.getD p 0) := by
  intro n
  induction n with
  | zero => intro idx copy reads hwf _; simp [Buf.Slice.loop, hwf]
  | succ n ih =>
    intro idx copy reads hwf h
    unfold Buf.Slice.loop
    simp only
    rw [Nat.mod_eq_of_lt (by omega)]
    rcases buf_putc_spec M alloc copy (self.byteAt (toSizeT begin + idx)) hwf with
      ⟨_, _, e3⟩ | ⟨_, e2, e3, e4, e5⟩
    · exact absurd hall e3
    · obtain ⟨i1, i2, i3, i4⟩ := ih (idx + 1) _ (reads ++ [toSizeT begin + idx]) e2 (by omega)
      refine ⟨i1, by rw [i2, e4], by rw [i3, e3]; omega, ?_⟩
      rw [i4, e5, List.range'_succ, List.map_cons, List.append_assoc]
      simp [buf_t.byteAt, Nat.add_assoc]


theorem toSizeT_lt (x : Int) : toSizeT x < 18446744073709551616 := by
  unfold toSizeT; omega

theorem bounds_no_wrap (S : Nat) (a0 : Int) (a1 : Option Int) :
    toSizeT (Buf.Slice.bounds S a0 a1).1 + 0 + (Buf.Slice.bounds S a0 a1).2
      ≤ 18446744073709551616 := by
  have h := (bounds_in_range S a0 a1).2
  have h2 := toSizeT_lt (Buf.Slice.bounds S a0 a1).1
  by_cases hl : 0 < (Buf.Slice.bounds S a0 a1).2
  · have := (h hl).2.2
    omega
  · omega

theorem New_ok (M : Nat) (self : buf_t) (hwf : self.WF M) (hu : self.unit < 4294967296) :
    Buf.New M self.unit = Except.ok (buf_new self.unit) := by
  obtain ⟨_, _, w3, w4⟩ := hwf
  unfold Buf.New IsUint32
  have h1 : ¬ self.unit = 0 := by omega
  have h2 : ¬ self.unit > M := by omega
  simp [hu, h1, h2]

theorem Slice_unfold (M : Nat) (alloc : Nat → Bool) (self : buf_t) (a0 : Int) (a1 : Option Int)
    (hnew : Buf.New M self.unit = Except.ok (buf_new self.unit))
    (h0 : IsInt32 a0 = true) (h1 : ∀ e, a1 = some e → IsInt32 e = true) :
    Buf.Slice M alloc self a0 a1 = Except.ok
      (Buf.Slice.loop alloc self (Buf.Slice.bounds self.size a0 a1).1
        (Buf.Slice.bounds self.size a0 a1).2 0
        ((if (Buf.Slice.bounds self.size a0 a1).2 > 0
            then (buf_grow alloc (buf_new self.unit) (Buf.Slice.bounds self.size a0 a1).2).2
            else buf_new self.unit), [])) := by
  cases a1 with
  | none =>
    unfold Buf.Slice
    simp only [h0, hnew, Bool.not_true, Bool.false_eq_true, if_false]
  | some e =>
    have h1b := h1 e rfl
    unfold Buf.Slice
    simp only [h0, h1b, hnew, Bool.not_true, Bool.false_eq_true, if_false]

/-- Outcome of `Slice` on a well-formed buffer when every allocation is granted
and the arguments are 32-bit integers, in terms of the bounds the code
computes.  No assumption on the size. -/
theorem Slice_ok (M : Nat) (alloc : Nat → Bool) (self : buf_t) (a0 : Int) (a1 : Option Int)
    (hwf : self.WF M) (hu : self.unit < 4294967296) (hall : ∀ k, alloc k = true)
    (h0 : IsInt32 a0 = true) (h1 : ∀ e, a1 = some e → IsInt32 e = true) :
    ∃ r reads, Buf.Slice M alloc self a0 a1 = Except.ok (r, reads) ∧
      r.WF M ∧ r.unit = self.unit ∧ r.size = (Buf.Slice.bounds self.size a0 a1).2 ∧
      buf_str r = (List.range' (toSizeT (Buf.Slice.bounds self.size a0 a1).1)
        (Buf.Slice.bounds self.size a0 a1).2).map (fun p => self.data.getD p 0) := by
  have hnew := New_ok M self hwf hu
  have hcw : (buf_new self.unit).WF M := buf_new_WF M self.unit hwf.2.2.1 hwf.2.2.2
  have hun := Slice_unfold M alloc self a0 a1 hnew h0 h1
  have hnw := bounds_no_wrap self.size a0 a1
  generalize Buf.Slice.bounds self.size a0 a1 = bl at *
  have hc1 : (if bl.2 > 0 then (buf_grow alloc (buf_new self.unit) bl.2).2
      else buf_new self.unit).WF M ∧
      (if bl.2 > 0 then (buf_grow alloc (buf_new self.unit) bl.2).2
        else buf_new self.unit).size = 0 ∧
      (if bl.2 > 0 then (buf_grow alloc (buf_new self.unit) bl.2).2
        else buf_new self.unit).unit = self.unit ∧
      buf_str (if bl.2 > 0 then (buf_grow alloc (buf_new self.unit) bl.2).2
        else buf_new self.unit) = [] := by
    obtain ⟨g1, g2, g3, g4⟩ := buf_grow_keeps M alloc (buf_new self.unit) bl.2 hcw
    split
    · exact ⟨g1, g2, g3, g4⟩
    · exact ⟨hcw, rfl, rfl, rfl⟩
  generalize (if bl.2 > 0 then (buf_grow alloc (buf_new self.unit) bl.2).2
      else buf_new self.unit) = copy1 at *
  obtain ⟨c1, c2, c3, c4⟩ := hc1
  obtain ⟨l1, l2, l3, l4⟩ := loop_spec M alloc self bl.1 hall bl.2 0 copy1 [] c1 hnw
  refine ⟨_, _, hun, l1, by rw [l2, c3], by rw [l3, c2]; omega, ?_⟩
  rw [l4, c4]
  simp

theorem bigBuf_WF : bigBuf.WF exampleMaxUnit := by
  refine ⟨?_, by decide, by decide, by decide⟩
  show (List.replicate 2147483648 32 ++ List.replicate 4 0).length = 2147483652
  rw [List.length_append, List.length_replicate, List.length_replicate]

/-- A buffer with the size and the bytes of `bigBuf` is what `SetLength` with
target 2^31 makes of the fresh buffer of unit 4. -/
theorem bigBuf_reachable :
    ∃ b, Buf.SetLength allocAlways 2147483648 (buf_new 4) 2147483648
        = some (Except.ok 2147483648, b) ∧
      b.WF exampleMaxUnit ∧ b.size = bigBuf.size ∧ b.unit = bigBuf.unit ∧
      buf_str b = buf_str bigBuf := by
  have hwf : (buf_new 4).WF exampleMaxUnit := by decide
  obtain ⟨b, hb⟩ := SetLength_returns exampleMaxUnit allocAlways (buf_new 4) 2147483648 hwf
    (by decide) (fun _ => rfl)
  obtain ⟨_, h2, h3, h4, h5, _⟩ := SetLength_ok exampleMaxUnit allocAlways _ (buf_new 4)
    2147483648 2147483648 b hwf hb
  refine ⟨b, hb, h4, h2, h3, ?_⟩
  have e1 : buf_str (buf_new 4) = [] := rfl
  have e2 : (buf_new 4).size = 0 := rfl
  rw [h5, e1, e2, List.take_nil, List.nil_append, Nat.sub_zero]
  show List.replicate 2147483648 32
    = List.take 2147483648 (List.replicate 2147483648 32 ++ List.replicate 4 0)
  rw [List.take_left' (List.length_replicate _ _)]

theorem Slice_reads_of_ok (M : Nat) (alloc : Nat → Bool) (self : buf_t) (a0 : Int)
    (a1 : Option Int) (r : buf_t) (reads : List Nat)
    (h : Buf.Slice M alloc self a0 a1 = Except.ok (r, reads)) :
    reads = List.range' (toSizeT (Buf.Slice.bounds self.size a0 a1).1)
      (Buf.Slice.bounds self.size a0 a1).2 := by
  have hnw := bounds_no_wrap self.size a0 a1
  unfold Buf.Slice at h
  split at h
  · cases h
  · split at h
    · cases h
    · split at h
      · cases h
      · rename_i copy _
        simp only [Except.ok.injEq] at h
        have hr := loop_reads alloc self (Buf.Slice.bounds self.size a0 a1).1
          (Buf.Slice.bounds self.size a0 a1).2 0
          (if (Buf.Slice.bounds self.size a0 a1).2 > 0
            then (buf_grow alloc copy (Buf.Slice.bounds self.size a0 a1).2).2 else copy) [] hnw
        rw [h] at hr
        simpa using hr

namespace Buf

/-- C1, as amended: for a well-formed buffer of size S below 2^31, when every
allocation is granted: with 32-bit integer arguments (`end` possibly omitted)
`Slice` returns a buffer whose size is `e - b` if `b < e` and 0 otherwise, with
`b` and `e` the adjusted bounds of the specification; with an argument that is
not a 32-bit integer it throws the type error of `ASSERT_INT32`. -/
theorem Slice_size_law (M : Nat) (alloc : Nat → Bool) (self : buf_t) (begin : Int)
    (end_ : Option Int) (hwf : self.WF M) (hu : self.unit < 4294967296)
    (hall : ∀ k, alloc k = true) (hS : self.size < 2147483648) :
    (IsInt32 begin = true → (∀ e, end_ = some e → IsInt32 e = true) →
      ∃ r reads, Slice M alloc self begin end_ = Except.ok (r, reads) ∧
        r.size = (if specBegin self.size begin < specEnd self.size end_
          then (specEnd self.size end_ - specBegin self.size begin).toNat else 0)) ∧
    (IsInt32 begin = false ∨ (∃ e, end_ = some e ∧ IsInt32 e = false) →
      Slice M alloc self begin end_ = Except.error Thrown.requires_integer) := by
  constructor
  · intro hb he
    obtain ⟨r, reads, h1, _, _, h4, _⟩ := Slice_ok M alloc self begin end_ hwf hu hall hb he
    refine ⟨r, reads, h1, ?_⟩
    rw [h4, (bounds_eq_spec self.size begin end_ hS hb he).2]
    rfl
  · intro h
    unfold Slice
    by_cases hb : IsInt32 begin = true
    · rcases h with h | ⟨e, h1, h2⟩
      · rw [h] at hb; cases hb
      · subst h1
        simp [hb, h2]
    · simp [hb]

/-- C2, as amended: for a well-formed buffer of size below 2^31 and 32-bit
integer arguments whose adjusted bounds (those of the specification) satisfy
`b < e`, when every allocation is granted `Slice` returns a buffer that has the
unit of the source and size `e - b`, and holds `source[b + i]` at every position
`i < e - b`. -/
theorem Slice_content (M : Nat) (alloc : Nat → Bool) (self : buf_t) (begin : Int)
    (end_ : Option Int) (hwf : self.WF M) (hu : self.unit < 4294967296)
    (hall : ∀ k, alloc k = true) (hS : self.size < 2147483648)
    (hb : IsInt32 begin = true) (he : ∀ e, end_ = some e → IsInt32 e = true)
    (hlt : specBegin self.size begin < specEnd self.size end_) :
    ∃ r reads, Slice M alloc self begin end_ = Except.ok (r, reads) ∧
      r.unit = self.unit ∧
      r.size = (specEnd self.size end_ - specBegin self.size begin).toNat ∧
      ∀ i, i < (specEnd self.size end_ - specBegin self.size begin).toNat →
        r.byteAt i = self.byteAt ((specBegin self.size begin).toNat + i) := by
  obtain ⟨r, reads, h1, _, h3, h4, h5⟩ := Slice_ok M alloc self begin end_ hwf hu hall hb he
  obtain ⟨e1, e2⟩ := bounds_eq_spec self.size begin end_ hS hb he
  have hlen : specLen self.size begin end_
      = (specEnd self.size end_ - specBegin self.size begin).toNat := by
    unfold specLen; rw [if_pos hlt]
  rw [e1, e2, hlen] at h5
  rw [e2, hlen] at h4
  have hB0 : 0 ≤ specBegin self.size begin := by unfold specBegin; split_ifs <;> omega
  have hB1 : specBegin self.size begin < 2147483648 := by
    have : specEnd self.size end_ ≤ self.size := by
      unfold specEnd
      cases end_ with
      | none => simp
      | some e => simp only; omega
    omega
  have hT : toSizeT (specBegin self.size begin) = (specBegin self.size begin).toNat := by
    have := toSizeT_id _ hB0 (by omega)
    omega
  rw [hT] at h5
  refine ⟨r, reads, h1, h3, h4, ?_⟩
  intro i hi
  rw [byteAt_eq_str r i (by omega), h5]
  simp only [List.getD_eq_getElem?_getD, List.getElem?_map]
  rw [List.getElem?_range' _ _ hi]
  simp [buf_t.byteAt]

/-- C2, the claim as stated fails: on "abcdef" with `begin = 0`, `end = 2^31` the
adjusted bounds of the specification are `b = 0 < e = 6`, yet `Slice` throws the
type error of `ASSERT_INT32` and returns no buffer; and on the well-formed
buffer of 2^31 spaces `Slice(0, 1)` returns an empty buffer and reads no source
byte, although the adjusted bounds are `b = 0 < e = 1`. -/
theorem Slice_content_counterexample :
    (specBegin abcdef.size 0 = 0 ∧ specEnd abcdef.size (some 2147483648) = 6 ∧
      Slice exampleMaxUnit allocAlways abcdef 0 (some 2147483648)
        = Except.error Thrown.requires_integer) ∧
    (bigBuf.WF exampleMaxUnit ∧
      specBegin bigBuf.size 0 = 0 ∧ specEnd bigBuf.size (some 1) = 1 ∧
      (Slice exampleMaxUnit allocAlways bigBuf 0 (some 1)).toOption.map
        (fun r => (r.1.size, r.1.unit, r.2)) = some (0, 4, [])) := by
  refine ⟨⟨by decide, by decide, rfl⟩, bigBuf_WF, by decide, by decide, by decide⟩

/-- Slice versus copy, for sizes below 2^31: when every allocation is granted,
`Slice(0)` with `end` omitted and `Copy` both succeed and return buffers with
the unit, the size and the bytes of the source. -/
theorem Slice_zero_eq_Copy (M : Nat) (alloc : Nat → Bool) (self : buf_t) (hwf : self.WF M)
    (hu : self.unit < 4294967296) (hall : ∀ k, alloc k = true) (hS : self.size < 2147483648) :
    ∃ r reads c, Slice M alloc self 0 none = Except.ok (r, reads) ∧
      Copy M alloc self = Except.ok c ∧
      r.unit = c.unit ∧ r.size = c.size ∧ buf_str r = buf_str c ∧
      c.unit = self.unit ∧ c.size = self.size ∧ buf_str c = buf_str self := by
  have h0 : IsInt32 0 = true := by decide
  have h1 : ∀ e : Int, (none : Option Int) = some e → IsInt32 e = true := by
    intro e he; cases he
  obtain ⟨r, reads, s1, _, s3, s4, s5⟩ := Slice_ok M alloc self 0 none hwf hu hall h0 h1
  obtain ⟨e1, e2⟩ := bounds_eq_spec self.size 0 none hS h0 h1
  have hb : specBegin self.size 0 = 0 := by unfold specBegin; simp
  have hl : specLen self.size 0 none = self.size := by
    unfold specLen
    rw [hb]
    show (if (0 : Int) < (self.size : Int) then ((self.size : Int) - 0).toNat else 0) = self.size
    split_ifs <;> omega
  rw [e1, e2, hb, hl] at s5
  rw [e2, hl] at s4
  have hT : toSizeT 0 = 0 := by decide
  rw [hT] at s5
  have hlen : self.size ≤ self.data.length := by obtain ⟨a1, a2, _, _⟩ := hwf; omega
  rw [map_getD_range' self.data self.size 0 (by omega)] at s5
  have hcw : (buf_new self.unit).WF M := buf_new_WF M self.unit hwf.2.2.1 hwf.2.2.2
  have hc : Copy M alloc self = Except.ok (buf_put alloc (buf_new self.unit) self.data self.size).2 := by
    unfold Copy
    rw [New_ok M self hwf hu]
  rcases buf_put_spec M alloc (buf_new self.unit) self.data self.size hcw hlen with
    ⟨_, _, p3⟩ | ⟨_, _, p3, p4, p5⟩
  · exact absurd hall p3
  · refine ⟨r, reads, _, s1, hc, ?_, ?_, ?_, p4, ?_, ?_⟩
    · rw [s3, p4]; rfl
    · rw [s4, p3]; show self.size = 0 + self.size; omega
    · rw [s5, p5]; simp [buf_str, buf_new]
    · rw [p3]; show 0 + self.size = self.size; omega
    · rw [p5]; simp [buf_str, buf_new]

/-- C3: on the well-formed buffer of 2^31 spaces, with every allocation granted,
`Slice(0)` with `end` omitted returns an empty buffer while `Copy` returns a
buffer of size 2^31. -/
theorem Slice_zero_ne_Copy_big :
    bigBuf.WF exampleMaxUnit ∧
    (Slice exampleMaxUnit allocAlways bigBuf 0 none).toOption.map (fun r => r.1.size) = some 0 ∧
    (Copy exampleMaxUnit allocAlways bigBuf).toOption.map (fun c => c.size)
      = some 2147483648 := by
  refine ⟨bigBuf_WF, by decide, by decide⟩

/-- C10: whenever `Slice` returns, the source positions read by its copy loop
are exactly `begin + idx` for `idx < len` (after the adjustment of the bounds),
and each of them is below the size of the source.  This holds for every size,
every allocator and all arguments. -/
theorem Slice_reads_in_bounds (M : Nat) (alloc : Nat → Bool) (self : buf_t) (a0 : Int)
    (a1 : Option Int) (r : buf_t) (reads : List Nat)
    (h : Slice M alloc self a0 a1 = Except.ok (r, reads)) :
    reads = (List.range (Slice.bounds self.size a0 a1).2).map
      (fun idx => (toSizeT (Slice.bounds self.size a0 a1).1 + idx) % 18446744073709551616) ∧
    ∀ p, p ∈ reads → p < self.size := by
  have hr := Slice_reads_of_ok M alloc self a0 a1 r reads h
  have hin := (bounds_in_range self.size a0 a1).2
  have hnw := bounds_no_wrap self.size a0 a1
  constructor
  · rw [hr, List.range'_eq_map_range]
    apply List.map_congr_left
    intro idx hidx
    rw [List.mem_range] at hidx
    rw [Nat.mod_eq_of_lt (by omega)]
  · intro p hp
    rw [hr, List.mem_range'_1] at hp
    have := (hin (by omega)).1
    omega

end Buf

/-! ## `Inspect` -/

theorem fmt_s_prec_of_nonzero (n : Nat) (s : List Nat) (h : ∀ x ∈ s.take n, x ≠ 0) :
    fmt_s_prec n s = s.take n := by
  unfold fmt_s_prec
  rw [List.take_takeWhile, List.takeWhile_eq_self_iff]
  intro x hx
  simpa using h x hx

theorem fmt_d_of_small (S : Nat) (h : S < 2147483648) : fmt_d (toInt32 S) = decimal S := by
  rw [toInt32_id S (by omega) (by omega)]
  unfold fmt_d
  rw [if_neg (by omega)]
  simp

theorem digitChar_ne_zero : ∀ d : Nat, d < 10 → (Nat.digitChar d).toNat ≠ 0 := by
  decide

theorem toDigitsCore_ne_zero : ∀ (fuel n : Nat) (ds : List Char),
    (∀ c ∈ ds, c.toNat ≠ 0) → ∀ c ∈ Nat.toDigitsCore 10 fuel n ds, c.toNat ≠ 0 := by
  intro fuel
  induction fuel with
  | zero => intro n ds h c hc; exact h c hc
  | succ fuel ih =>
    intro n ds h c hc
    have hd : ∀ x ∈ Nat.digitChar (n % 10) :: ds, x.toNat ≠ 0 := by
      intro x hx
      rcases List.mem_cons.mp hx with hx | hx
      · rw [hx]; exact digitChar_ne_zero _ (Nat.mod_lt _ (by decide))
      · exact h x hx
    unfold Nat.toDigitsCore at hc
    simp only at hc
    split at hc
    · exact hd c hc
    · exact ih _ _ hd c hc

theorem decimal_ne_zero (n : Nat) : ∀ x ∈ decimal n, x ≠ 0 := by
  intro x hx
  unfold decimal at hx
  obtain ⟨c, hc, rfl⟩ := List.mem_map.mp hx
  exact toDigitsCore_ne_zero _ _ [] (fun _ h => absurd h (List.not_mem_nil _)) c hc

theorem fmt_s_prec_ne_zero (n : Nat) (s : List Nat) : ∀ x ∈ fmt_s_prec n s, x ≠ 0 := by
  intro x hx
  unfold fmt_s_prec at hx
  have := List.mem_takeWhile_imp (List.mem_of_mem_take hx)
  simpa using this

theorem NanNew_String_of_ne_zero (l : List Nat) (h : ∀ x ∈ l, x ≠ 0) : NanNew_String l = l := by
  unfold NanNew_String
  rw [List.takeWhile_eq_self_iff]
  intro x hx
  simpa using h x hx

theorem buf_sprintf_fresh (alloc : Nat → Bool) (unit : Nat) (out : List Nat) (h0 : 0 < unit)
    (hall : ∀ k, alloc k = true) :
    buf_str (buf_sprintf alloc (buf_new unit) out).2 = out := by
  have hwf : (buf_new unit).WF unit := buf_new_WF unit unit h0 (Nat.le_refl _)
  unfold buf_sprintf
  rcases buf_put_spec unit alloc (buf_new unit) out out.length hwf (Nat.le_refl _) with
    ⟨_, _, p3⟩ | ⟨_, _, _, _, p5⟩
  · exact absurd hall p3
  · rw [p5]
    simp [buf_str, buf_new]

namespace Buf

/-- C9, as amended: for a buffer of size below 2^31, when the scratch allocation
is granted, `Inspect` returns `"<buf [" ++ decimal size ++ "] '" ++ P ++ D ++ "'>"`
with `D` equal to ".." exactly when `size > 10` and `P` the first `min size 10`
bytes of the content up to, and not including, the first zero byte among them;
when none of them is zero, `P` is all of them.  The inspected buffer is left
unchanged. -/
theorem Inspect_spec (alloc : Nat → Bool) (self : buf_t) (hall : ∀ k, alloc k = true)
    (hS : self.size < 2147483648) :
    (Inspect alloc self).1 =
      ascii "<buf [" ++ decimal self.size ++ ascii "] \x27" ++
        ((buf_str self).take 10).takeWhile (fun c => c != 0) ++
        (if self.size > 10 then ascii ".." else []) ++ ascii "\x27>" ∧
    ((∀ x ∈ (buf_str self).take 10, x ≠ 0) →
      (Inspect alloc self).1 =
        ascii "<buf [" ++ decimal self.size ++ ascii "] \x27" ++ (buf_str self).take 10 ++
          (if self.size > 10 then ascii ".." else []) ++ ascii "\x27>") ∧
    ((buf_str self).take 10).length = min 10 (min self.size self.data.length) ∧
    (Inspect alloc self).2 = self := by
  have e1 : (Inspect alloc self).1 =
      ascii "<buf [" ++ decimal self.size ++ ascii "] \x27" ++ fmt_s_prec 10 (buf_str self) ++
        (if self.size > 10 then ascii ".." else []) ++ ascii "\x27>" := by
    have hz : ∀ x ∈ ascii "<buf [" ++ decimal self.size ++ ascii "] \x27" ++
        fmt_s_prec 10 (buf_str self) ++ (if self.size > 10 then ascii ".." else ascii "") ++
        ascii "\x27>", x ≠ 0 := by
      intro x hx
      simp only [List.mem_append] at hx
      rcases hx with ((((hx | hx) | hx) | hx) | hx) | hx
      · revert x; decide
      · exact decimal_ne_zero _ x hx
      · revert x; decide
      · exact fmt_s_prec_ne_zero _ _ x hx
      · split at hx
        · revert x; decide
        · exact absurd hx (List.not_mem_nil _)
      · revert x; decide
    unfold Inspect
    simp only
    rw [buf_sprintf_fresh alloc _ _ (by omega) hall, fmt_d_of_small self.size hS,
      NanNew_String_of_ne_zero _ hz]
    rfl
  refine ⟨?_, ?_, by simp [buf_str, List.length_take], rfl⟩
  · rw [e1]
    unfold fmt_s_prec
    rw [List.take_takeWhile]
  · intro hnz
    rw [e1, fmt_s_prec_of_nonzero 10 _ hnz]

/-- C9, the claim as stated fails: on the buffer holding the bytes 0x61, 0x00,
0x63 (size 3) `Inspect` returns `<buf [3] 'a'>`, not the text with all three
bytes between the quotes; and on the buffer of 2^31 spaces the size is printed
as -2147483648. -/
theorem Inspect_counterexample :
    (Inspect allocAlways nulBuf).1 = ascii "<buf [3] \x27a\x27>" ∧
    (Inspect allocAlways nulBuf).1 ≠
      ascii "<buf [" ++ decimal nulBuf.size ++ ascii "] \x27" ++ (buf_str nulBuf).take 10 ++
        (if nulBuf.size > 10 then ascii ".." else []) ++ ascii "\x27>" ∧
    (Inspect allocAlways bigBuf).1 = ascii "<buf [-2147483648] \x27          ..\x27>" := by
  refine ⟨by decide, by decide, by decide⟩

end Buf

/-! ## Concrete instances -/

namespace Buf

/-- C1, the claim as stated fails: `Slice` throws on `begin = 2^31`, an integer
that is not a 32-bit value; and on the well-formed buffer of 2^31 spaces
`Slice(0)` returns a buffer of size 0, where the stated law gives 2^31. -/
theorem Slice_size_law_counterexample :
    Slice exampleMaxUnit allocAlways abcdef 2147483648 none
      = Except.error Thrown.requires_integer ∧
    bigBuf.WF exampleMaxUnit ∧
    (Slice exampleMaxUnit allocAlways bigBuf 0 none).toOption.map (fun r => r.1.size) = some 0 ∧
    (if specBegin bigBuf.size 0 < specEnd bigBuf.size none
      then (specEnd bigBuf.size none - specBegin bigBuf.size 0).toNat else 0) = 2147483648 := by
  refine ⟨rfl, bigBuf_WF, by decide, by decide⟩

/-- Instance of C1 on "abcdef": `Slice(-3, -1)` has size 2. -/
theorem Slice_size_law_witness :
    abcdef.WF exampleMaxUnit ∧ abcdef.unit < 4294967296 ∧ abcdef.size < 2147483648 ∧
    IsInt32 (-3) = true ∧ IsInt32 (-1) = true ∧
    (Slice exampleMaxUnit allocAlways abcdef (-3) (some (-1))).toOption.map
      (fun r => r.1.size) = some 2 := by
  refine ⟨by decide, by decide, by decide, by decide, by decide, ?_⟩
  obtain ⟨r, reads, h, hs⟩ := (Slice_size_law exampleMaxUnit allocAlways abcdef (-3) (some (-1))
    (by decide) (by decide) (fun _ => rfl) (by decide)).1 (by decide)
    (by intro e he; cases he; decide)
  have e : (if specBegin abcdef.size (-3) < specEnd abcdef.size (some (-1))
      then (specEnd abcdef.size (some (-1)) - specBegin abcdef.size (-3)).toNat else 0) = 2 := by
    decide
  rw [e] at hs
  rw [h]
  simp [Except.toOption, hs]

/-- Instance of C2 on "abcdef": `Slice(-3, -1)` has unit 4, size 2 and holds the
bytes of "de", which are the source bytes at positions 3 and 4. -/
theorem Slice_content_witness :
    abcdef.WF exampleMaxUnit ∧ abcdef.unit < 4294967296 ∧ abcdef.size < 2147483648 ∧
    specBegin abcdef.size (-3) = 3 ∧ specEnd abcdef.size (some (-1)) = 5 ∧
    (Slice exampleMaxUnit allocAlways abcdef (-3) (some (-1))).toOption.map
      (fun r => (r.1.unit, r.1.size, r.1.byteAt 0, r.1.byteAt 1))
      = some (4, 2, abcdef.byteAt 3, abcdef.byteAt 4) ∧
    [abcdef.byteAt 3, abcdef.byteAt 4] = ascii "de" := by
  refine ⟨by decide, by decide, by decide, by decide, by decide, ?_, by decide⟩
  obtain ⟨r, reads, h, hu, hs, hby⟩ := Slice_content exampleMaxUnit allocAlways abcdef (-3)
    (some (-1)) (by decide) (by decide) (fun _ => rfl) (by decide) (by decide)
    (by intro e he; cases he; decide) (by decide)
  have e0 := hby 0 (by decide)
  have e1 := hby 1 (by decide)
  have hs2 : r.size = 2 := hs
  have hu2 : r.unit = 4 := hu
  have e0b : r.byteAt 0 = abcdef.byteAt 3 := e0
  have e1b : r.byteAt 1 = abcdef.byteAt 4 := e1
  rw [h]
  simp only [Except.toOption, Option.map_some', hs2, hu2, e0b, e1b]

/-- Instance of C4 on "abcdef": `SetLength(9)` returns with size 9, keeps the
byte at position 0 and holds a space at position 8. -/
theorem SetLength_spec_witness :
    abcdef.WF exampleMaxUnit ∧
    (SetLength allocAlways 3 abcdef 9).map (fun p => (p.1, p.2.size, p.2.byteAt 0, p.2.byteAt 8))
      = some (Except.ok 9, 9, 97, 32) := by
  refine ⟨by decide, ?_⟩
  have hs := SetLength_spec exampleMaxUnit abcdef 9 (by decide)
  obtain ⟨b, hb⟩ := hs.1 (by decide) allocAlways (fun _ => rfl)
  obtain ⟨_, h2, h3, h4, _⟩ := hs.2 allocAlways 3 9 b hb
  have e0 := h3 0 (by decide)
  have e8 := h4 8 (by decide) (by decide)
  have hb2 : SetLength allocAlways 3 abcdef 9 = some (Except.ok 9, b) := hb
  rw [hb2]
  simp only [Option.map_some', h2, e0, e8]
  rfl

/-- Instance of C8 with the maximum unit 2^20: unit 4 is accepted, unit 0 and
unit 2^20 + 1 are refused. -/
theorem New_spec_witness :
    exampleMaxUnit < 4294967296 ∧
    (New exampleMaxUnit 4).toOption.map (fun b => b.unit) = some 4 ∧
    (New exampleMaxUnit 0).toOption = none ∧
    (New exampleMaxUnit 1048577).toOption = none := by
  refine ⟨by decide, ?_, ?_, ?_⟩
  · obtain ⟨buf, h, hu, _⟩ :=
      (New_spec exampleMaxUnit 4 (Or.inl (by decide))).2 ⟨by decide, by decide⟩
    rw [h]
    simp [Except.toOption, hu]
  · obtain ⟨e, h⟩ := (New_spec exampleMaxUnit 0 (Or.inl (by decide))).1.mpr (Or.inl rfl)
    rw [h]
    rfl
  · obtain ⟨e, h⟩ :=
      (New_spec exampleMaxUnit 1048577 (Or.inl (by decide))).1.mpr (Or.inr (by decide))
    rw [h]
    rfl

/-- Instance of C9 on "hello world": the summary is `<buf [11] 'hello worl..'>`. -/
theorem Inspect_spec_witness :
    helloWorld.size < 2147483648 ∧
    (Inspect allocAlways helloWorld).1 = ascii "<buf [11] \x27hello worl..\x27>" ∧
    (Inspect allocAlways helloWorld).2 = helloWorld :=
  ⟨by decide,
    ((Inspect_spec allocAlways helloWorld (fun _ => rfl) (by decide)).2.1 (by decide)).trans
      (by decide),
    (Inspect_spec allocAlways helloWorld (fun _ => rfl) (by decide)).2.2.2⟩

/-- Instance of C10 on "abcdef": `Slice(-3, -1)` returns "de" after reading the
positions 3 and 4, both below the size 6. -/
theorem Slice_reads_in_bounds_witness :
    Slice exampleMaxUnit allocAlways abcdef (-3) (some (-1))
      = Except.ok ({ data := [100, 101, 0, 0], size := 2, cap := 4, unit := 4 }, [3, 4]) ∧
    3 < abcdef.size ∧ 4 < abcdef.size := by
  have h : Slice exampleMaxUnit allocAlways abcdef (-3) (some (-1))
      = Except.ok ({ data := [100, 101, 0, 0], size := 2, cap := 4, unit := 4 }, [3, 4]) := by
    rfl
  exact ⟨h,
    (Slice_reads_in_bounds exampleMaxUnit allocAlways abcdef (-3) (some (-1)) _ _ h).2 3
      (by decide),
    (Slice_reads_in_bounds exampleMaxUnit allocAlways abcdef (-3) (some (-1)) _ _ h).2 4
      (by decide)⟩

end Buf
